import Mathlib

/-!
Verification of the analytics aggregation pipeline of `client-expense`
(`src/components/ExpenseList.tsx`, the `ExpenseAnalytics` component).

Amounts are modelled as exact rationals (`Rat`); years and months as
integers.  JavaScript objects used as maps are modelled as
insertion-ordered association lists, matching the enumeration order of
`Object.keys` / `Object.values`.  A JavaScript division whose denominator
is `0` produces `NaN` or `±Infinity`; we model such a result as `none`.
-/

namespace ClientExpense

/-- A raw analytics record fetched from the API (interface `AnalyticsData`
in `ExpenseList.tsx`): one entry per (year, month, category). -/
structure AnalyticsData where
  year : Int
  month : Int
  category : String
  totalAmount : Rat
deriving DecidableEq

/-- Source constant `CATEGORY_COLORS` (`ExpenseList.tsx:615-621`), in insertion order. -/
def CATEGORY_COLORS : List (String × String) :=
  [("Rental", "#8884d8"), ("Groceries", "#82ca9d"), ("Entertainment", "#ffc658"),
   ("Travel", "#ff7300"), ("Others", "#413ea0")]

/-- Model of `Object.keys(CATEGORY_COLORS)`: the fixed known-category enumeration
used by `totalExpenses`, `categoryTotals` and the stacked bar chart. -/
def knownCategories : List String := CATEGORY_COLORS.map Prod.fst

/-- Source constant `CATEGORIES` (`ExpenseForm.tsx:18-25`): the category options the entry
form offers.  Note that it contains "Education", which is absent from
`CATEGORY_COLORS`. -/
def CATEGORIES : List String :=
  ["Rental", "Groceries", "Entertainment", "Education", "Travel", "Others"]

/-- One (year, month) bucket (interface `ChartDataItem` in
`ExpenseList.tsx:632-638`).  The TS object stores the per-category amounts
as extra string-indexed fields next to the four fixed fields; we model them
as a separate insertion-ordered association list `cats`, which is faithful
because no category name used by the application collides with a fixed
field name. -/
structure ChartDataItem where
  month : String
  year : Int
  monthNum : Int
  label : String
  cats : List (String × Rat)
deriving DecidableEq

/-- Model of `month.toString().padStart(2, "0")`. -/
def padTwo (m : Int) : String :=
  let s := toString m
  if s.length < 2 then "0" ++ s else s

/-- The bucket's `month` field: `` `${item.year}-${item.month.toString().padStart(2, "0")}` ``. -/
def monthKey (y m : Int) : String := toString y ++ "-" ++ padTwo m

/-- Abbreviated month name for a zero-based month index (en-US short form). -/
def monthShortName (idx : Int) : String :=
  match idx with
  | 0 => "Jan" | 1 => "Feb" | 2 => "Mar" | 3 => "Apr" | 4 => "May" | 5 => "Jun"
  | 6 => "Jul" | 7 => "Aug" | 8 => "Sep" | 9 => "Oct" | 10 => "Nov" | _ => "Dec"

/-- The bucket's `label` field:
`new Date(item.year, item.month - 1).toLocaleDateString(undefined, { month: "short", year: "numeric" })`,
fixed to the en-US locale.  The `Date(year, monthIndex)` constructor rolls
an out-of-range month index over into the year, which the floor division
and Euclidean remainder reproduce. -/
def monthLabel (y m : Int) : String :=
  monthShortName ((m - 1) % 12) ++ " " ++ toString (y + (m - 1) / 12)

/-- Reading `acc[key][cat]` from the bucket's category fields; an absent
category reads as `undefined`, which `(... || 0)` turns into `0`. -/
def lookupAmount : List (String × Rat) → String → Rat
  | [], _ => 0
  | (c', a) :: rest, c => if c' = c then a else lookupAmount rest c

/-- Model of `(month[category] as number) || 0`: the bucket's amount for a category,
`0` when the category has no entry in the bucket.  (`0 || 0` is `0`, so the
falsiness of `0` does not change the numeric value.) -/
def catAmount (b : ChartDataItem) (c : String) : Rat := lookupAmount b.cats c

/-- Model of the assignment `acc[key][item.category] = ((acc[key][item.category] as number) || 0) + item.totalAmount`:
add an amount to one category field of a bucket, creating the field at the
end (JS object insertion order) on first sight. -/
def updateCats : List (String × Rat) → String → Rat → List (String × Rat)
  | [], c, amt => [(c, amt)]
  | (c', a) :: rest, c, amt =>
      if c' = c then (c', a + amt) :: rest
      else (c', a) :: updateCats rest c amt

/-- One step of the `analytics.reduce` in `groupedAnalytics`
(`ExpenseList.tsx:667-686`): look the record's `` `${year}-${month}` `` key
up in the accumulator (the key determines exactly the pair
`(year, month)`), create the bucket on first sight (at the end, as JS
object insertion order does), and add `totalAmount` to the record's
category field. -/
def addRecord : List ChartDataItem → AnalyticsData → List ChartDataItem
  | [], r =>
      [{ month := monthKey r.year r.month
         year := r.year
         monthNum := r.month
         label := monthLabel r.year r.month
         cats := [(r.category, r.totalAmount)] }]
  | b :: rest, r =>
      if b.year = r.year ∧ b.monthNum = r.month then
        { b with cats := updateCats b.cats r.category r.totalAmount } :: rest
      else
        b :: addRecord rest r

/-- Source value `groupedAnalytics` (`ExpenseList.tsx:667-686`): group the records by
`` `${year}-${month}` ``, one bucket per distinct key, summing per-category
amounts.  `Object.values` later enumerates the buckets in key insertion
order, which is the order of this list. -/
def groupedAnalytics (analytics : List AnalyticsData) : List ChartDataItem :=
  analytics.foldl addRecord []

/-- ECMAScript `DaysFromYear(y)`: days from the epoch to the start of year
`y` (ECMA-262 21.4.1.3).  Lean's `Int` division is Euclidean, which agrees
with the mathematical floor for these positive divisors. -/
def daysFromYear (y : Int) : Int :=
  365 * (y - 1970) + (y - 1969) / 4 - (y - 1901) / 100 + (y - 1601) / 400

/-- ECMAScript `InLeapYear` (ECMA-262 21.4.1.5). -/
def inLeapYear (y : Int) : Bool :=
  (y % 4 == 0 && y % 100 != 0) || y % 400 == 0

/-- Cumulative days before months January through June (common year). -/
def daysBeforeMonthLow (m : Int) : Int :=
  if m ≤ 1 then 0
  else if m = 2 then 31
  else if m = 3 then 59
  else if m = 4 then 90
  else if m = 5 then 120
  else 151

/-- Cumulative days before months July through December (common year). -/
def daysBeforeMonthHigh (m : Int) : Int :=
  if m = 7 then 181
  else if m = 8 then 212
  else if m = 9 then 243
  else if m = 10 then 273
  else if m = 11 then 304
  else 334

/-- Cumulative days before month `m` (1-based) in a common year, per the
ECMAScript month layout. -/
def daysBeforeMonthBase (m : Int) : Int :=
  if m ≤ 6 then daysBeforeMonthLow m else daysBeforeMonthHigh m

/-- Days from the start of a year to the start of month `m` (1-based): the
common-year table, plus the leap day for months after February. -/
def daysBeforeMonth (m : Int) (leap : Bool) : Int :=
  daysBeforeMonthBase m + (if leap ∧ 3 ≤ m then 1 else 0)

/-- Model of `new Date(s).getTime()` for the bucket string `"YYYY-MM"`: the
ECMAScript time value (milliseconds since the epoch, UTC midnight on the
first of the month).  Faithful whenever the pair is a valid calendar value
with a four-digit year, so that the string is a well-formed ISO date. -/
def monthTimeMs (y m : Int) : Int :=
  (daysFromYear y + daysBeforeMonth m (inLeapYear y)) * 86400000

/-- The sort key of `sortedChartData`: `new Date(b.month).getTime()`,
where `b.month` encodes the bucket's `(year, monthNum)`. -/
def bucketTime (b : ChartDataItem) : Int := monthTimeMs b.year b.monthNum

/-- Source value `sortedChartData` (`ExpenseList.tsx:689-691`):
`Object.values(groupedAnalytics).sort((a, b) => new Date(a.month).getTime() - new Date(b.month).getTime())`.
ECMAScript `Array.prototype.sort` is stable, so we use the stable
`List.mergeSort`; `a` may precede `b` exactly when the comparator is
nonpositive, i.e. when `bucketTime a ≤ bucketTime b`. -/
def sortedChartData (analytics : List AnalyticsData) : List ChartDataItem :=
  (groupedAnalytics analytics).mergeSort (fun a b => bucketTime a ≤ bucketTime b)

/-- The `selectedTimeframe` state: `"all" | "last6Months" | "last3Months"`. -/
inductive Timeframe where
  | all
  | last6Months
  | last3Months
deriving DecidableEq

/-- Source value `filteredChartData` (`ExpenseList.tsx:693-704`): the `switch` on the
selected timeframe; `slice(-n)` keeps the trailing `n` elements (all of
them when the list is shorter than `n`). -/
def filteredChartData (tf : Timeframe) (sorted : List ChartDataItem) : List ChartDataItem :=
  match tf with
  | .last3Months => sorted.drop (sorted.length - 3)
  | .last6Months => sorted.drop (sorted.length - 6)
  | .all => sorted

/-- The inner reduce of `totalExpenses`: one month's total over
`Object.keys(CATEGORY_COLORS)`. -/
def monthTotal (b : ChartDataItem) : Rat :=
  knownCategories.foldl (fun sum c => sum + catAmount b c) 0

/-- Source value `totalExpenses` (`ExpenseList.tsx:707-715`): the grand total of the
filtered chart data over the known categories. -/
def totalExpenses (months : List ChartDataItem) : Rat :=
  months.foldl (fun total b => total + monthTotal b) 0

/-- One entry of `categoryTotals` (`{ category, total, color }`). -/
structure CategoryTotal where
  category : String
  total : Rat
  color : String
deriving DecidableEq

/-- Model of the lookup `CATEGORY_COLORS[category]`. -/
def categoryColor (c : String) : String := (CATEGORY_COLORS.lookup c).getD ("")

/-- The column sum of one category over the filtered months: the inner
reduce of `categoryTotals` (`ExpenseList.tsx:720-722`). -/
def categoryColumnTotal (months : List ChartDataItem) (c : String) : Rat :=
  months.foldl (fun sum b => sum + catAmount b c) 0

/-- The unsorted ranking list built by the `.map` in `categoryTotals`
(`ExpenseList.tsx:718-724`): one `{ category, total, color }` entry per key
of `CATEGORY_COLORS`, in key order. -/
def rankInput (months : List ChartDataItem) : List CategoryTotal :=
  knownCategories.map (fun c =>
    { category := c
      total := categoryColumnTotal months c
      color := categoryColor c })

/-- Source value `categoryTotals` (`ExpenseList.tsx:717-725`): the ranking
list, then `.sort((a, b) => b.total - a.total)` — a stable descending sort
on `total` (`a` may precede `b` exactly when the comparator is
nonpositive, i.e. when `b.total ≤ a.total`). -/
def categoryTotals (months : List ChartDataItem) : List CategoryTotal :=
  (rankInput months).mergeSort (fun a b => b.total ≤ a.total)

/-- JavaScript division.  A zero denominator yields `NaN` (for `0 / 0`) or
`±Infinity`, never the number `0`; we model such a non-finite result as
`none`. -/
def jsDiv (a b : Rat) : Option Rat := if b = 0 then none else some (a / b)

/-- The per-category share rendered at `ExpenseList.tsx:946` (and by the
pie tooltip at line 777): `(total / totalExpenses) * 100` with no zero
guard.  The `* 100` and the `toFixed(1)` rounding are formatting; the
underlying ratio is `total / totalExpenses`. -/
def shareOfTotal (months : List ChartDataItem) (total : Rat) : Option Rat :=
  jsDiv total (totalExpenses months)

/-- The "Average Monthly" tile (`ExpenseList.tsx:958-970`):
`totalExpenses / filteredChartData.length`, rendered only when
`filteredChartData.length > 0`; `none` models the summary cards not being
rendered at all. -/
def averageMonthly (months : List ChartDataItem) : Option Rat :=
  if months.length > 0 then some (totalExpenses months / (months.length : Rat))
  else none

/-- The "Highest Category" tile (`ExpenseList.tsx:972-984`):
`categoryTotals[0]?.category || "None"`, rendered only when
`filteredChartData.length > 0` (`none` models the tile not being
rendered). -/
def highestCategory (months : List ChartDataItem) : Option String :=
  if months.length > 0 then
    some (((categoryTotals months).head?.map CategoryTotal.category).getD ("None"))
  else none

/-- The sum of `totalAmount` over the input records sharing a given
(year, month, category) — the reference value for grouping correctness. -/
def recordSum (analytics : List AnalyticsData) (y m : Int) (c : String) : Rat :=
  ((analytics.filter (fun r => r.year = y ∧ r.month = m ∧ r.category = c)).map
    AnalyticsData.totalAmount).sum

/-- A valid calendar (year, month) pair, with the four-digit year required
for the bucket's `"YYYY-MM"` string to be a well-formed ISO date. -/
def ValidYM (y m : Int) : Prop :=
  1000 ≤ y ∧ y ≤ 9999 ∧ 1 ≤ m ∧ m ≤ 12

instance (y m : Int) : Decidable (ValidYM y m) := by
  unfold ValidYM; infer_instance

/-- The bucket's grouping key. -/
def bkey (b : ChartDataItem) : Int × Int := (b.year, b.monthNum)

/-- The grouping keys of a bucket list. -/
def keysOf (acc : List ChartDataItem) : List (Int × Int) := acc.map bkey

/-- The amount recorded for category `c` across all buckets of `acc` whose
key is `(y, m)` (there is at most one such bucket once the keys are
distinct). -/
def amountAt (acc : List ChartDataItem) (y m : Int) (c : String) : Rat :=
  (acc.map (fun b => if b.year = y ∧ b.monthNum = m then catAmount b c else 0)).sum

/-- Strict lexicographic (year, month) order on buckets. -/
def bucketLt (a b : ChartDataItem) : Prop :=
  a.year < b.year ∨ (a.year = b.year ∧ a.monthNum < b.monthNum)

theorem lookupAmount_updateCats (cats : List (String × Rat)) (c0 c : String) (amt : Rat) :
    lookupAmount (updateCats cats c0 amt) c =
      lookupAmount cats c + (if c0 = c then amt else 0) := by
  induction cats with
  | nil =>
      simp only [updateCats, lookupAmount]
      split_ifs <;> simp_all [lookupAmount]
  | cons hd tl ih =>
      obtain ⟨c', a⟩ := hd
      simp only [updateCats]
      split_ifs with h1 <;> simp only [lookupAmount] <;>
        split_ifs <;> simp_all [lookupAmount]

theorem keysOf_cons (b : ChartDataItem) (l : List ChartDataItem) :
    keysOf (b :: l) = bkey b :: keysOf l := rfl

theorem amountAt_cons (b : ChartDataItem) (l : List ChartDataItem)
    (y m : Int) (c : String) :
    amountAt (b :: l) y m c =
      (if b.year = y ∧ b.monthNum = m then catAmount b c else 0) + amountAt l y m c := by
  simp [amountAt]

theorem catAmount_update (b : ChartDataItem) (c0 c : String) (amt : Rat) :
    catAmount { b with cats := updateCats b.cats c0 amt } c =
      catAmount b c + (if c0 = c then amt else 0) := by
  simp [catAmount, lookupAmount_updateCats]

theorem keysOf_addRecord (acc : List ChartDataItem) (r : AnalyticsData) :
    keysOf (addRecord acc r) =
      if (r.year, r.month) ∈ keysOf acc then keysOf acc
      else keysOf acc ++ [(r.year, r.month)] := by
  induction acc with
  | nil => simp [addRecord, keysOf, bkey]
  | cons b rest ih =>
      by_cases hb : b.year = r.year ∧ b.monthNum = r.month
      · have hk : bkey b = (r.year, r.month) := by simp [bkey, hb.1, hb.2]
        have hmem : (r.year, r.month) ∈ keysOf (b :: rest) := by
          rw [keysOf_cons, ← hk]
          exact List.mem_cons_self _ _
        simp only [addRecord, if_pos hb, if_pos hmem]
        rw [keysOf_cons, keysOf_cons]
        simp [bkey]
      · have hk : bkey b ≠ (r.year, r.month) := by
          intro h
          rw [bkey, Prod.mk.injEq] at h
          exact hb ⟨h.1, h.2⟩
        simp only [addRecord, if_neg hb]
        rw [keysOf_cons, keysOf_cons, ih]
        by_cases hm : (r.year, r.month) ∈ keysOf rest
        · rw [if_pos hm, if_pos (List.mem_cons_of_mem _ hm)]
        · rw [if_neg hm, if_neg (by
            intro hcon
            rcases List.mem_cons.mp hcon with h | h
            · exact hk h.symm
            · exact hm h)]
          rfl

theorem mem_keysOf_addRecord (acc : List ChartDataItem) (r : AnalyticsData)
    (k : Int × Int) :
    k ∈ keysOf (addRecord acc r) ↔ k ∈ keysOf acc ∨ k = (r.year, r.month) := by
  rw [keysOf_addRecord]
  split_ifs with h
  · constructor
    · exact fun hk => Or.inl hk
    · rintro (hk | rfl)
      · exact hk
      · exact h
  · simp [List.mem_append]

theorem nodup_keysOf_addRecord (acc : List ChartDataItem) (r : AnalyticsData)
    (h : (keysOf acc).Nodup) : (keysOf (addRecord acc r)).Nodup := by
  rw [keysOf_addRecord]
  split_ifs with hm
  · exact h
  · simp [List.nodup_append, h, hm]

theorem mem_keysOf_foldl (rs : List AnalyticsData) (acc : List ChartDataItem)
    (k : Int × Int) :
    k ∈ keysOf (rs.foldl addRecord acc) ↔
      k ∈ keysOf acc ∨ ∃ r ∈ rs, (r.year, r.month) = k := by
  induction rs generalizing acc with
  | nil => simp
  | cons r rs ih =>
      simp only [List.foldl_cons]
      rw [ih, mem_keysOf_addRecord]
      constructor
      · rintro ((hk | rfl) | ⟨r', hr', hk⟩)
        · exact Or.inl hk
        · exact Or.inr ⟨r, List.mem_cons_self r rs, rfl⟩
        · exact Or.inr ⟨r', List.mem_cons_of_mem r hr', hk⟩
      · rintro (hk | ⟨r', hr', hk⟩)
        · exact Or.inl (Or.inl hk)
        · rcases List.mem_cons.mp hr' with rfl | hr'
          · exact Or.inl (Or.inr hk.symm)
          · exact Or.inr ⟨r', hr', hk⟩

theorem nodup_keysOf_foldl (rs : List AnalyticsData) (acc : List ChartDataItem)
    (h : (keysOf acc).Nodup) : (keysOf (rs.foldl addRecord acc)).Nodup := by
  induction rs generalizing acc with
  | nil => exact h
  | cons r rs ih => exact ih _ (nodup_keysOf_addRecord _ _ h)

theorem recordSum_cons (r : AnalyticsData) (rs : List AnalyticsData)
    (y m : Int) (c : String) :
    recordSum (r :: rs) y m c =
      (if r.year = y ∧ r.month = m ∧ r.category = c then r.totalAmount else 0) +
        recordSum rs y m c := by
  simp only [recordSum, List.filter_cons]
  by_cases h : r.year = y ∧ r.month = m ∧ r.category = c
  · rw [if_pos (by simp [h.1, h.2.1, h.2.2]), if_pos h]
    simp [recordSum]
  · rw [if_neg (by simpa using h), if_neg h]
    simp [recordSum]

theorem amountAt_addRecord (acc : List ChartDataItem) (r : AnalyticsData)
    (y m : Int) (c : String) :
    amountAt (addRecord acc r) y m c =
      amountAt acc y m c +
        (if r.year = y ∧ r.month = m ∧ r.category = c then r.totalAmount else 0) := by
  induction acc with
  | nil =>
      simp only [addRecord, amountAt, List.map_cons, List.map_nil, List.sum_cons,
        List.sum_nil, catAmount, lookupAmount]
      split_ifs <;> simp_all
  | cons b rest ih =>
      by_cases hb : b.year = r.year ∧ b.monthNum = r.month
      · simp only [addRecord, if_pos hb]
        rw [amountAt_cons, amountAt_cons]
        dsimp only
        rw [catAmount_update]
        split_ifs <;> simp_all <;> ring
      · simp only [addRecord, if_neg hb]
        rw [amountAt_cons, amountAt_cons, ih]
        ring

theorem amountAt_foldl (rs : List AnalyticsData) (acc : List ChartDataItem)
    (y m : Int) (c : String) :
    amountAt (rs.foldl addRecord acc) y m c =
      amountAt acc y m c + recordSum rs y m c := by
  induction rs generalizing acc with
  | nil => simp [recordSum]
  | cons r rs ih =>
      simp only [List.foldl_cons]
      rw [ih, amountAt_addRecord, recordSum_cons]
      ring

theorem amountAt_of_not_mem (acc : List ChartDataItem) (y m : Int) (c : String)
    (h : (y, m) ∉ keysOf acc) : amountAt acc y m c = 0 := by
  induction acc with
  | nil => simp [amountAt]
  | cons b rest ih =>
      rw [keysOf_cons, List.mem_cons, not_or] at h
      have hb : ¬(b.year = y ∧ b.monthNum = m) := by
        intro ⟨h1, h2⟩
        exact h.1 (by simp [bkey, h1, h2])
      rw [amountAt_cons, if_neg hb, ih h.2]
      ring

theorem amountAt_of_mem (acc : List ChartDataItem) (b : ChartDataItem) (c : String)
    (hnd : (keysOf acc).Nodup) (hb : b ∈ acc) :
    amountAt acc b.year b.monthNum c = catAmount b c := by
  induction acc with
  | nil => cases hb
  | cons a rest ih =>
      rw [keysOf_cons, List.nodup_cons] at hnd
      rcases List.mem_cons.mp hb with rfl | hb'
      · rw [amountAt_cons, if_pos ⟨rfl, rfl⟩]
        rw [amountAt_of_not_mem rest b.year b.monthNum c (by
          intro hmem
          exact hnd.1 (by simpa [bkey] using hmem))]
        ring
      · have ha : ¬(a.year = b.year ∧ a.monthNum = b.monthNum) := by
          intro ⟨h1, h2⟩
          apply hnd.1
          have hmem : bkey b ∈ keysOf rest := List.mem_map_of_mem bkey hb'
          simpa [bkey, h1, h2] using hmem
        rw [amountAt_cons, if_neg ha, ih hnd.2 hb']
        ring

/-- C1: for every input collection, the aggregation produces exactly one
bucket per distinct (year, month) pair — the bucket keys are duplicate-free
and are exactly the (year, month) pairs occurring in the input — and in
every bucket the amount stored for a category equals the sum of
`totalAmount` over all input records sharing that bucket's (year, month)
and that category (records with the same key are summed, never
overwritten). -/
theorem c1_grouping_correctness (analytics : List AnalyticsData) :
    (keysOf (groupedAnalytics analytics)).Nodup
    ∧ (∀ y m : Int, (y, m) ∈ keysOf (groupedAnalytics analytics) ↔
        ∃ r ∈ analytics, r.year = y ∧ r.month = m)
    ∧ ∀ b ∈ groupedAnalytics analytics, ∀ c : String,
        catAmount b c = recordSum analytics b.year b.monthNum c := by
  have hnd : (keysOf (groupedAnalytics analytics)).Nodup :=
    nodup_keysOf_foldl analytics [] (by simp [keysOf])
  refine ⟨hnd, ?_, ?_⟩
  · intro y m
    rw [groupedAnalytics, mem_keysOf_foldl]
    simp [keysOf, Prod.ext_iff]
  · intro b hb c
    have h1 : amountAt (groupedAnalytics analytics) b.year b.monthNum c = catAmount b c :=
      amountAt_of_mem _ b c hnd hb
    have h2 : amountAt (groupedAnalytics analytics) b.year b.monthNum c =
        recordSum analytics b.year b.monthNum c := by
      rw [groupedAnalytics, amountAt_foldl]
      simp [amountAt]
    rw [← h1, h2]

/-- C3: the AllTime window returns the series unchanged, and the
LastNMonths windows (n = 3 and n = 6) return exactly the trailing slice of
the series, of length min n (series length): the series decomposes as an
untouched prefix followed by the window, with no padding and no selection
by calendar date. -/
theorem c3_windowing (sorted : List ChartDataItem) :
    filteredChartData .all sorted = sorted
    ∧ (filteredChartData .last3Months sorted).length = min 3 sorted.length
    ∧ (filteredChartData .last6Months sorted).length = min 6 sorted.length
    ∧ sorted.take (sorted.length - 3) ++ filteredChartData .last3Months sorted = sorted
    ∧ sorted.take (sorted.length - 6) ++ filteredChartData .last6Months sorted = sorted := by
  refine ⟨rfl, ?_, ?_, ?_, ?_⟩
  · simp only [filteredChartData, List.length_drop]
    omega
  · simp only [filteredChartData, List.length_drop]
    omega
  · exact List.take_append_drop _ _
  · exact List.take_append_drop _ _

theorem daysBeforeMonthLow_bounds (m : Int) :
    0 ≤ daysBeforeMonthLow m ∧ daysBeforeMonthLow m ≤ 151 := by
  unfold daysBeforeMonthLow
  split_ifs <;> omega

theorem daysBeforeMonthHigh_bounds (m : Int) :
    181 ≤ daysBeforeMonthHigh m ∧ daysBeforeMonthHigh m ≤ 334 := by
  unfold daysBeforeMonthHigh
  split_ifs <;> omega

theorem daysBeforeMonthBase_bounds (m : Int) :
    0 ≤ daysBeforeMonthBase m ∧ daysBeforeMonthBase m ≤ 334 := by
  unfold daysBeforeMonthBase
  have h1 := daysBeforeMonthLow_bounds m
  have h2 := daysBeforeMonthHigh_bounds m
  split_ifs <;> omega

theorem daysBeforeMonth_nonneg (m : Int) (leap : Bool) :
    0 ≤ daysBeforeMonth m leap := by
  unfold daysBeforeMonth
  have h1 := daysBeforeMonthBase_bounds m
  split_ifs <;> omega

theorem daysBeforeMonth_le (m : Int) (leap : Bool) :
    daysBeforeMonth m leap ≤ 335 := by
  unfold daysBeforeMonth
  have h1 := daysBeforeMonthBase_bounds m
  split_ifs <;> omega

theorem daysBeforeMonthBase_lt (m m' : Int) (h1 : 1 ≤ m) (h2 : m < m')
    (h3 : m' ≤ 12) : daysBeforeMonthBase m < daysBeforeMonthBase m' := by
  have hm : m ≤ 11 := by omega
  interval_cases m <;> interval_cases m' <;>
    norm_num [daysBeforeMonthBase, daysBeforeMonthLow, daysBeforeMonthHigh]

theorem daysBeforeMonth_lt (m m' : Int) (leap : Bool) (h1 : 1 ≤ m) (h2 : m < m')
    (h3 : m' ≤ 12) : daysBeforeMonth m leap < daysBeforeMonth m' leap := by
  have hbase := daysBeforeMonthBase_lt m m' h1 h2 h3
  unfold daysBeforeMonth
  cases leap
  · simp
    omega
  · simp
    split_ifs <;> omega

theorem monthTimeMs_lt (y m y' m' : Int) (h : ValidYM y m) (h' : ValidYM y' m')
    (hlt : y < y' ∨ (y = y' ∧ m < m')) : monthTimeMs y m < monthTimeMs y' m' := by
  obtain ⟨hy1, hy2, hm1, hm2⟩ := h
  obtain ⟨hy1', hy2', hm1', hm2'⟩ := h'
  unfold monthTimeMs
  apply mul_lt_mul_of_pos_right ?_ (by norm_num : (0:Int) < 86400000)
  rcases hlt with hy | ⟨rfl, hm⟩
  · have hb1 : daysBeforeMonth m (inLeapYear y) ≤ 335 := daysBeforeMonth_le m _
    have hb2 : 0 ≤ daysBeforeMonth m' (inLeapYear y') := daysBeforeMonth_nonneg m' _
    have hdy : daysFromYear y + 335 < daysFromYear y' := by
      unfold daysFromYear
      omega
    omega
  · have hlt2 := daysBeforeMonth_lt m m' (inLeapYear y) hm1 hm hm2'
    omega

theorem valid_of_mem_grouped (analytics : List AnalyticsData)
    (hv : ∀ r ∈ analytics, ValidYM r.year r.month)
    (b : ChartDataItem) (hb : b ∈ groupedAnalytics analytics) :
    ValidYM b.year b.monthNum := by
  have hk : bkey b ∈ keysOf (groupedAnalytics analytics) :=
    List.mem_map_of_mem bkey hb
  rw [groupedAnalytics, mem_keysOf_foldl] at hk
  rcases hk with hk | ⟨r, hr, hk⟩
  · simp [keysOf] at hk
  · have := hv r hr
    rw [bkey, Prod.mk.injEq] at hk
    rw [← hk.1, ← hk.2]
    exact this

/-- C4: for every input whose records carry valid calendar (year, month)
values, the aggregated-and-sorted series is strictly ascending in the
lexicographic (year, month) order, and its (year, month) keys contain no
duplicates. -/
theorem c4_chronological_ordering (analytics : List AnalyticsData)
    (hv : ∀ r ∈ analytics, ValidYM r.year r.month) :
    (sortedChartData analytics).Pairwise bucketLt
    ∧ (keysOf (sortedChartData analytics)).Nodup := by
  have hnd : (keysOf (groupedAnalytics analytics)).Nodup :=
    nodup_keysOf_foldl analytics [] (by simp [keysOf])
  have hperm : List.Perm (sortedChartData analytics) (groupedAnalytics analytics) :=
    List.mergeSort_perm _ _
  have hndS : (keysOf (sortedChartData analytics)).Nodup :=
    ((hperm.map bkey).nodup_iff).mpr hnd
  have hvS : ∀ b ∈ sortedChartData analytics, ValidYM b.year b.monthNum := by
    intro b hb
    exact valid_of_mem_grouped analytics hv b (hperm.mem_iff.mp hb)
  have hsorted : (sortedChartData analytics).Pairwise
      (fun a b => bucketTime a ≤ bucketTime b) := by
    have h := @List.sorted_mergeSort ChartDataItem
      (fun a b => decide (bucketTime a ≤ bucketTime b))
      (fun a b c hab hbc => by
        simp only [decide_eq_true_eq] at hab hbc ⊢
        exact le_trans hab hbc)
      (fun a b => by
        rcases Int.le_total (bucketTime a) (bucketTime b) with h | h <;>
          simp [h])
      (groupedAnalytics analytics)
    exact h.imp (by simp only [decide_eq_true_eq]; exact id)
  have hneq : (sortedChartData analytics).Pairwise
      (fun a b => bkey a ≠ bkey b) := by
    have := (List.pairwise_map (f := bkey)).mp hndS
    exact this
  refine ⟨?_, hndS⟩
  refine ((hsorted.and hneq).imp_of_mem ?_)
  intro a b ha hb hab
  obtain ⟨hle, hne⟩ := hab
  have hva := hvS a ha
  have hvb := hvS b hb
  rcases lt_trichotomy a.year b.year with hy | hy | hy
  · exact Or.inl hy
  · rcases lt_trichotomy a.monthNum b.monthNum with hm | hm | hm
    · exact Or.inr ⟨hy, hm⟩
    · exact absurd (by rw [bkey, bkey, hy, hm]) hne
    · have := monthTimeMs_lt b.year b.monthNum a.year a.monthNum hvb hva
        (Or.inr ⟨hy.symm, hm⟩)
      rw [bucketTime, bucketTime] at hle
      omega
  · have := monthTimeMs_lt b.year b.monthNum a.year a.monthNum hvb hva (Or.inl hy)
    rw [bucketTime, bucketTime] at hle
    omega

theorem foldl_add_eq {α : Type} (l : List α) (g : α → Rat) (init : Rat) :
    l.foldl (fun s x => s + g x) init = init + (l.map g).sum := by
  induction l generalizing init with
  | nil => simp
  | cons x t ih =>
      simp only [List.foldl_cons, List.map_cons, List.sum_cons, ih]
      ring

theorem pair_sublist_asymm {α : Type} {l : List α} (hnd : l.Nodup) :
    ∀ {x y : α}, List.Sublist [x, y] l → List.Sublist [y, x] l → x = y := by
  induction l with
  | nil =>
      intro x y h1 _
      cases h1
  | cons a t ih =>
      intro x y h1 h2
      rw [List.nodup_cons] at hnd
      cases h1 with
      | cons _ h1' =>
          cases h2 with
          | cons _ h2' => exact ih hnd.2 h1' h2'
          | cons₂ _ h2' => exact absurd (h1'.subset (by simp)) hnd.1
      | cons₂ _ h1' =>
          cases h2 with
          | cons _ h2' => exact absurd (h2'.subset (by simp)) hnd.1
          | cons₂ _ h2' => rfl

theorem knownCategories_nodup : knownCategories.Nodup := by decide

theorem knownCategories_pair_sublist :
    ∀ c ∈ knownCategories, ∀ c' ∈ knownCategories,
      knownCategories.indexOf c' < knownCategories.indexOf c →
      List.Sublist [c', c] knownCategories := by decide

theorem rankLe_trans : ∀ a b c : CategoryTotal,
    decide (b.total ≤ a.total) → decide (c.total ≤ b.total) →
      decide (c.total ≤ a.total) := by
  intro a b c hab hbc
  simp only [decide_eq_true_eq] at hab hbc ⊢
  exact le_trans hbc hab

theorem rankLe_total : ∀ a b : CategoryTotal,
    decide (b.total ≤ a.total) || decide (a.total ≤ b.total) := by
  intro a b
  rcases le_total a.total b.total with h | h <;> simp [h]

/-- C5: the rankings contain exactly one entry per category of
`knownCategories` (the entry's total is the category's sum over the
windowed series, so a category with zero occurrences appears with total
0), sorted descending by total, with ties broken by the category's
position in `knownCategories` — a deterministic total order. -/
theorem c5_category_ranking (months : List ChartDataItem) :
    List.Perm ((categoryTotals months).map CategoryTotal.category) knownCategories
    ∧ (∀ e ∈ categoryTotals months,
        e.total = ((months.map (fun b => catAmount b e.category)).sum))
    ∧ (categoryTotals months).Pairwise (fun a b =>
        b.total < a.total ∨ (a.total = b.total ∧
          knownCategories.indexOf a.category < knownCategories.indexOf b.category)) := by
  have hperm : List.Perm (categoryTotals months) (rankInput months) :=
    List.mergeSort_perm _ _
  have hmapcat : (rankInput months).map CategoryTotal.category = knownCategories := by
    simp [rankInput, knownCategories, CATEGORY_COLORS]
  have hInd : (rankInput months).Nodup := by
    have h := hmapcat ▸ (knownCategories_nodup)
    exact h.of_map
  have hRnd : (categoryTotals months).Nodup := hperm.nodup_iff.mpr hInd
  refine ⟨?_, ?_, ?_⟩
  · have := hperm.map CategoryTotal.category
    rwa [hmapcat] at this
  · intro e he
    have heI : e ∈ rankInput months :=
      hperm.mem_iff.mp he
    obtain ⟨c, _, rfl⟩ := List.mem_map.mp heI
    simp [categoryColumnTotal, foldl_add_eq]
  · have hsorted := @List.sorted_mergeSort CategoryTotal
      (fun a b => decide (b.total ≤ a.total)) rankLe_trans rankLe_total
      (rankInput months)
    rw [List.pairwise_iff_forall_sublist]
    intro a b hab
    have hle : b.total ≤ a.total := by
      have h := (List.pairwise_iff_forall_sublist.mp hsorted) hab
      simpa using h
    rcases lt_or_eq_of_le hle with hlt | heq
    · exact Or.inl hlt
    · right
      refine ⟨heq.symm, ?_⟩
      have haR : a ∈ categoryTotals months := hab.subset (by simp)
      have hbR : b ∈ categoryTotals months := hab.subset (by simp)
      have haI : a ∈ rankInput months := hperm.mem_iff.mp haR
      have hbI : b ∈ rankInput months := hperm.mem_iff.mp hbR
      obtain ⟨ca, hca, rfl⟩ := List.mem_map.mp haI
      obtain ⟨cb, hcb, rfl⟩ := List.mem_map.mp hbI
      by_contra hnot
      push_neg at hnot
      rcases lt_or_eq_of_le hnot with hlt2 | heq2
      · have hsub : List.Sublist [cb, ca] knownCategories :=
          knownCategories_pair_sublist ca hca cb hcb hlt2
        have hsub2 := hsub.map (fun c =>
          ({ category := c, total := categoryColumnTotal months c,
             color := categoryColor c } : CategoryTotal))
        rw [List.map_cons, List.map_cons, List.map_nil] at hsub2
        have hpair := List.pair_sublist_mergeSort rankLe_trans rankLe_total
          (by simpa using heq.ge) hsub2
        have hcontra := pair_sublist_asymm hRnd hab hpair
        have hcc : ca = cb := congrArg CategoryTotal.category hcontra
        subst hcc
        exact absurd hlt2 (lt_irrefl _)
      · have : ca = cb := (List.indexOf_inj hca hcb).mp heq2.symm
        subst this
        exact (List.nodup_iff_sublist.mp hRnd) _ hab

theorem sum_map_add {β : Type} (M : List β) (f g : β → Rat) :
    (M.map (fun b => f b + g b)).sum = (M.map f).sum + (M.map g).sum := by
  induction M with
  | nil => simp
  | cons b t ih =>
      simp only [List.map_cons, List.sum_cons, ih]
      ring

theorem sum_map_swap {α β : Type} (K : List α) (M : List β) (g : β → α → Rat) :
    (K.map (fun c => (M.map (fun b => g b c)).sum)).sum
      = (M.map (fun b => (K.map (fun c => g b c)).sum)).sum := by
  induction K with
  | nil => simp
  | cons c K ih =>
      simp only [List.map_cons, List.sum_cons, ih, ← sum_map_add]

theorem monthTotal_eq (b : ChartDataItem) :
    monthTotal b = (knownCategories.map (fun c => catAmount b c)).sum := by
  simp [monthTotal, foldl_add_eq]

theorem totalExpenses_eq (months : List ChartDataItem) :
    totalExpenses months = (months.map monthTotal).sum := by
  simp [totalExpenses, foldl_add_eq]

theorem categoryColumnTotal_eq (months : List ChartDataItem) (c : String) :
    categoryColumnTotal months c = (months.map (fun b => catAmount b c)).sum := by
  simp [categoryColumnTotal, foldl_add_eq]

theorem sum_rankings_eq_totalExpenses (months : List ChartDataItem) :
    ((categoryTotals months).map CategoryTotal.total).sum = totalExpenses months := by
  have hperm : List.Perm (categoryTotals months) (rankInput months) :=
    List.mergeSort_perm _ _
  rw [(hperm.map CategoryTotal.total).sum_eq]
  have hcomp : (rankInput months).map CategoryTotal.total
      = knownCategories.map (fun c => categoryColumnTotal months c) := by
    simp [rankInput, List.map_map]
  rw [hcomp]
  simp only [categoryColumnTotal_eq]
  rw [sum_map_swap]
  simp only [← monthTotal_eq]
  rw [← totalExpenses_eq]

/-- C9: for every windowed series whose grand total is positive, the
per-category shares of total, in exact rational arithmetic, sum to exactly
1 across the category rankings. -/
theorem c9_shares_sum_to_one (months : List ChartDataItem)
    (h : 0 < totalExpenses months) :
    ((categoryTotals months).map
      (fun e => (jsDiv e.total (totalExpenses months)).getD 0)).sum = 1 := by
  have hne : totalExpenses months ≠ 0 := ne_of_gt h
  have hdiv : ∀ e : CategoryTotal,
      (jsDiv e.total (totalExpenses months)).getD 0
        = e.total * (totalExpenses months)⁻¹ := by
    intro e
    simp [jsDiv, hne, div_eq_mul_inv]
  simp only [hdiv]
  rw [List.sum_map_mul_right, sum_rankings_eq_totalExpenses]
  exact mul_inv_cancel₀ hne

theorem sum_map_ite_single {K : List String} (hnd : K.Nodup) (c0 : String) (amt : Rat) :
    (K.map (fun c => if c0 = c then amt else 0)).sum = if c0 ∈ K then amt else 0 := by
  induction K with
  | nil => simp
  | cons c K ih =>
      rw [List.nodup_cons] at hnd
      simp only [List.map_cons, List.sum_cons]
      by_cases h : c0 = c
      · subst h
        rw [if_pos rfl, ih hnd.2, if_neg hnd.1, if_pos (List.mem_cons_self _ _)]
        ring
      · rw [if_neg h, ih hnd.2]
        by_cases hm : c0 ∈ K
        · rw [if_pos hm, if_pos (List.mem_cons_of_mem _ hm)]
          ring
        · rw [if_neg hm, if_neg (by
            intro hcon
            rcases List.mem_cons.mp hcon with hc | hc
            · exact h hc
            · exact hm hc)]
          ring

theorem totalExpenses_cons (b : ChartDataItem) (l : List ChartDataItem) :
    totalExpenses (b :: l) = monthTotal b + totalExpenses l := by
  rw [totalExpenses_eq, totalExpenses_eq, List.map_cons, List.sum_cons]

theorem categoryColumnTotal_cons (b : ChartDataItem) (l : List ChartDataItem)
    (c : String) :
    categoryColumnTotal (b :: l) c = catAmount b c + categoryColumnTotal l c := by
  rw [categoryColumnTotal_eq, categoryColumnTotal_eq, List.map_cons, List.sum_cons]

theorem catAmount_single (mo : String) (y mn : Int) (lb : String)
    (c0 c : String) (amt : Rat) :
    catAmount ⟨mo, y, mn, lb, [(c0, amt)]⟩ c = if c0 = c then amt else 0 := by
  simp [catAmount, lookupAmount]

theorem monthTotal_update (b : ChartDataItem) (c0 : String) (amt : Rat) :
    monthTotal { b with cats := updateCats b.cats c0 amt } =
      monthTotal b + (if c0 ∈ knownCategories then amt else 0) := by
  rw [monthTotal_eq, monthTotal_eq]
  simp only [catAmount_update]
  rw [sum_map_add, sum_map_ite_single knownCategories_nodup]

theorem monthTotal_single (mo : String) (y mn : Int) (lb : String)
    (c0 : String) (amt : Rat) :
    monthTotal ⟨mo, y, mn, lb, [(c0, amt)]⟩ =
      if c0 ∈ knownCategories then amt else 0 := by
  rw [monthTotal_eq]
  simp only [catAmount_single]
  exact sum_map_ite_single knownCategories_nodup c0 amt

theorem length_addRecord (acc : List ChartDataItem) (r : AnalyticsData) :
    (addRecord acc r).length =
      if (r.year, r.month) ∈ keysOf acc then acc.length else acc.length + 1 := by
  have h1 : (addRecord acc r).length = (keysOf (addRecord acc r)).length :=
    (List.length_map _ _).symm
  have h2 : acc.length = (keysOf acc).length := (List.length_map _ _).symm
  rw [h1, h2, keysOf_addRecord]
  split_ifs <;> simp

theorem totalExpenses_addRecord (acc : List ChartDataItem) (r : AnalyticsData) :
    totalExpenses (addRecord acc r) =
      totalExpenses acc +
        (if r.category ∈ knownCategories then r.totalAmount else 0) := by
  induction acc with
  | nil =>
      simp only [addRecord]
      rw [totalExpenses_cons, monthTotal_single]
      simp [totalExpenses]
  | cons b rest ih =>
      by_cases hb : b.year = r.year ∧ b.monthNum = r.month
      · simp only [addRecord, if_pos hb]
        rw [totalExpenses_cons, totalExpenses_cons, monthTotal_update]
        ring
      · simp only [addRecord, if_neg hb]
        rw [totalExpenses_cons, totalExpenses_cons, ih]
        ring

theorem categoryColumnTotal_addRecord (acc : List ChartDataItem)
    (r : AnalyticsData) (c : String) :
    categoryColumnTotal (addRecord acc r) c =
      categoryColumnTotal acc c +
        (if r.category = c then r.totalAmount else 0) := by
  induction acc with
  | nil =>
      simp only [addRecord]
      rw [categoryColumnTotal_cons, catAmount_single]
      simp [categoryColumnTotal]
  | cons b rest ih =>
      by_cases hb : b.year = r.year ∧ b.monthNum = r.month
      · simp only [addRecord, if_pos hb]
        rw [categoryColumnTotal_cons, categoryColumnTotal_cons, catAmount_update]
        ring
      · simp only [addRecord, if_neg hb]
        rw [categoryColumnTotal_cons, categoryColumnTotal_cons, ih]
        ring

theorem categoryTotals_addRecord_unknown (acc : List ChartDataItem)
    (r : AnalyticsData) (h : r.category ∉ knownCategories) :
    categoryTotals (addRecord acc r) = categoryTotals acc := by
  unfold categoryTotals
  congr 1
  unfold rankInput
  apply List.map_congr_left
  intro c hc
  have hne : r.category ≠ c := fun hcc => h (hcc ▸ hc)
  rw [categoryColumnTotal_addRecord, if_neg hne, add_zero]

/-- C10: a record whose category lies outside the known-category set (the
keys of `CATEGORY_COLORS`) still creates or extends its (year, month)
bucket — growing the bucket count that serves as the averageMonthly
denominator exactly when its key is new — while leaving the grand total,
every category ranking entry, and every share unchanged. -/
theorem c10_unknown_category (analytics : List AnalyticsData) (r : AnalyticsData)
    (h : r.category ∉ knownCategories) :
    (∃ b ∈ groupedAnalytics (analytics ++ [r]),
        b.year = r.year ∧ b.monthNum = r.month)
    ∧ (groupedAnalytics (analytics ++ [r])).length =
        (if (r.year, r.month) ∈ keysOf (groupedAnalytics analytics)
         then (groupedAnalytics analytics).length
         else (groupedAnalytics analytics).length + 1)
    ∧ totalExpenses (groupedAnalytics (analytics ++ [r]))
        = totalExpenses (groupedAnalytics analytics)
    ∧ categoryTotals (groupedAnalytics (analytics ++ [r]))
        = categoryTotals (groupedAnalytics analytics)
    ∧ ∀ t : Rat, shareOfTotal (groupedAnalytics (analytics ++ [r])) t
        = shareOfTotal (groupedAnalytics analytics) t := by
  have hg : groupedAnalytics (analytics ++ [r])
      = addRecord (groupedAnalytics analytics) r := by
    rw [groupedAnalytics, groupedAnalytics, List.foldl_append, List.foldl_cons,
      List.foldl_nil]
  refine ⟨?_, ?_, ?_, ?_, ?_⟩
  · have hk : (r.year, r.month) ∈ keysOf (groupedAnalytics (analytics ++ [r])) := by
      rw [groupedAnalytics, mem_keysOf_foldl]
      exact Or.inr ⟨r, by simp, rfl⟩
    obtain ⟨b, hb, hkey⟩ := List.mem_map.mp hk
    rw [bkey, Prod.mk.injEq] at hkey
    exact ⟨b, hb, hkey.1, hkey.2⟩
  · rw [hg, length_addRecord]
  · rw [hg, totalExpenses_addRecord, if_neg h, add_zero]
  · rw [hg, categoryTotals_addRecord_unknown _ _ h]
  · intro t
    rw [shareOfTotal, shareOfTotal, hg, totalExpenses_addRecord, if_neg h, add_zero]

/-- C10 witness: the entry form offers "Education", which is not a known
chart category; appending such a record to a one-record input creates a
new bucket while changing no total, ranking, or share. -/
theorem c10_unknown_category_witness :
    "Education" ∈ CATEGORIES
    ∧ "Education" ∉ knownCategories
    ∧ ((∃ b ∈ groupedAnalytics ([⟨2024, 2, "Groceries", 30⟩] ++
          [⟨2024, 1, "Education", 100⟩]),
          b.year = 2024 ∧ b.monthNum = 1)
      ∧ (groupedAnalytics ([⟨2024, 2, "Groceries", 30⟩] ++
            [⟨2024, 1, "Education", 100⟩])).length =
          (if ((2024 : Int), (1 : Int)) ∈
              keysOf (groupedAnalytics [⟨2024, 2, "Groceries", 30⟩])
           then (groupedAnalytics [⟨2024, 2, "Groceries", 30⟩]).length
           else (groupedAnalytics [⟨2024, 2, "Groceries", 30⟩]).length + 1)
      ∧ totalExpenses (groupedAnalytics ([⟨2024, 2, "Groceries", 30⟩] ++
            [⟨2024, 1, "Education", 100⟩]))
          = totalExpenses (groupedAnalytics [⟨2024, 2, "Groceries", 30⟩])
      ∧ categoryTotals (groupedAnalytics ([⟨2024, 2, "Groceries", 30⟩] ++
            [⟨2024, 1, "Education", 100⟩]))
          = categoryTotals (groupedAnalytics [⟨2024, 2, "Groceries", 30⟩])
      ∧ ∀ t : Rat, shareOfTotal (groupedAnalytics ([⟨2024, 2, "Groceries", 30⟩] ++
            [⟨2024, 1, "Education", 100⟩])) t
          = shareOfTotal (groupedAnalytics [⟨2024, 2, "Groceries", 30⟩]) t) :=
  ⟨by decide, by decide,
    c10_unknown_category [⟨2024, 2, "Groceries", 30⟩] ⟨2024, 1, "Education", 100⟩
      (by decide)⟩

/-- C2 (code bug): on the input consisting of one record with the
form-offered category "Education", the category breakdown renders (the
window has one bucket) with a zero grand total, and every rendered share
is the non-finite result of dividing by zero (NaN in the source), not the
0 the specification requires. -/
theorem c2_share_nan_on_zero_total :
    (filteredChartData .all (sortedChartData [⟨2024, 1, "Education", 100⟩])).length = 1
    ∧ totalExpenses
        (filteredChartData .all (sortedChartData [⟨2024, 1, "Education", 100⟩])) = 0
    ∧ ∀ e ∈ categoryTotals
        (filteredChartData .all (sortedChartData [⟨2024, 1, "Education", 100⟩])),
        shareOfTotal
          (filteredChartData .all (sortedChartData [⟨2024, 1, "Education", 100⟩]))
          e.total = none := by
  have hw : filteredChartData .all (sortedChartData [⟨2024, 1, "Education", 100⟩])
      = [⟨monthKey 2024 1, 2024, 1, monthLabel 2024 1, [("Education", 100)]⟩] := by
    simp [filteredChartData, sortedChartData, groupedAnalytics, addRecord,
      List.mergeSort]
  rw [hw]
  have htot : totalExpenses
      [(⟨monthKey 2024 1, 2024, 1, monthLabel 2024 1, [("Education", 100)]⟩ :
        ChartDataItem)] = 0 := by
    simp +decide [totalExpenses, monthTotal, knownCategories, CATEGORY_COLORS,
      catAmount, lookupAmount]
  refine ⟨rfl, htot, ?_⟩
  intro e _
  rw [shareOfTotal, htot]
  simp [jsDiv]

/-- C6 (counterexample): on the single-record "Education" input the window
is nonempty and every ranking total is 0, yet the component reports
"Rental" — the first ranking entry — as the highest category instead of
reporting none. -/
theorem c6_counterexample :
    highestCategory
      (filteredChartData .all (sortedChartData [⟨2024, 1, "Education", 100⟩]))
      = some "Rental"
    ∧ ((categoryTotals
        (filteredChartData .all (sortedChartData [⟨2024, 1, "Education", 100⟩]))).head?.map
          CategoryTotal.total) = some 0 := by
  have hw : filteredChartData .all (sortedChartData [⟨2024, 1, "Education", 100⟩])
      = [⟨monthKey 2024 1, 2024, 1, monthLabel 2024 1, [("Education", 100)]⟩] := by
    simp [filteredChartData, sortedChartData, groupedAnalytics, addRecord,
      List.mergeSort]
  rw [hw]
  have hct : categoryTotals
      [(⟨monthKey 2024 1, 2024, 1, monthLabel 2024 1, [("Education", 100)]⟩ :
        ChartDataItem)]
      = [⟨"Rental", 0, "#8884d8"⟩, ⟨"Groceries", 0, "#82ca9d"⟩,
         ⟨"Entertainment", 0, "#ffc658"⟩, ⟨"Travel", 0, "#ff7300"⟩,
         ⟨"Others", 0, "#413ea0"⟩] := by
    simp +decide [categoryTotals, rankInput, knownCategories, CATEGORY_COLORS,
      categoryColumnTotal, catAmount, lookupAmount, categoryColor,
      List.mergeSort, List.merge]
  rw [highestCategory, hct]
  simp

/-- C6 (amended): whenever the summary cards render (nonempty window), the
reported highest category is the category of the first rankings entry,
regardless of whether that entry has a positive total; the "None" fallback
is unreachable because the rankings always hold one entry per known
category. -/
theorem c6_amended (months : List ChartDataItem) (h : months ≠ []) :
    ∃ e, (categoryTotals months).head? = some e
      ∧ highestCategory months = some e.category := by
  have hlen : (categoryTotals months).length = 5 := by
    simp [categoryTotals, rankInput, knownCategories, CATEGORY_COLORS]
  obtain ⟨e, hhead⟩ : ∃ e, (categoryTotals months).head? = some e := by
    cases hct : categoryTotals months with
    | nil => rw [hct] at hlen; simp at hlen
    | cons e t => exact ⟨e, rfl⟩
  refine ⟨e, hhead, ?_⟩
  rw [highestCategory, if_pos (List.length_pos.mpr h), hhead]
  rfl

/-- C6 witness: the amended statement applied to a one-bucket window. -/
theorem c6_amended_witness :
    ([(⟨"2024-01", 2024, 1, "Jan 2024", []⟩ : ChartDataItem)] : List ChartDataItem) ≠ []
    ∧ ∃ e, (categoryTotals [(⟨"2024-01", 2024, 1, "Jan 2024", []⟩ : ChartDataItem)]).head?
          = some e
        ∧ highestCategory [(⟨"2024-01", 2024, 1, "Jan 2024", []⟩ : ChartDataItem)]
          = some e.category :=
  ⟨by simp, c6_amended _ (by simp)⟩

/-- C7 (counterexample): a record with a negative amount is not rejected:
the aggregation is total, stores the malformed amount in its bucket, and
sums it into the grand total (here −50), instead of signaling an
invalid-input error. -/
theorem c7_counterexample :
    groupedAnalytics [⟨2024, 1, "Groceries", -50⟩]
      = [⟨monthKey 2024 1, 2024, 1, monthLabel 2024 1, [("Groceries", -50)]⟩]
    ∧ totalExpenses (groupedAnalytics [⟨2024, 1, "Groceries", -50⟩]) = -50 := by
  refine ⟨by simp [groupedAnalytics, addRecord], ?_⟩
  simp +decide [groupedAnalytics, addRecord, totalExpenses, monthTotal,
    knownCategories, CATEGORY_COLORS, catAmount, lookupAmount]

/-- C7 (amended): the aggregation performs no input validation — every
record, including one with a negative amount or an invalid month, is
folded into a bucket keyed by its (year, month); nothing is rejected and
no error path exists. -/
theorem c7_amended (analytics : List AnalyticsData) (r : AnalyticsData)
    (h : r ∈ analytics) :
    ∃ b ∈ groupedAnalytics analytics, b.year = r.year ∧ b.monthNum = r.month := by
  have hk : (r.year, r.month) ∈ keysOf (groupedAnalytics analytics) := by
    rw [groupedAnalytics, mem_keysOf_foldl]
    exact Or.inr ⟨r, h, rfl⟩
  obtain ⟨b, hb, hkey⟩ := List.mem_map.mp hk
  rw [bkey, Prod.mk.injEq] at hkey
  exact ⟨b, hb, hkey.1, hkey.2⟩

/-- C7 witness: a record with month 13 and amount −7 is still aggregated
into a bucket. -/
theorem c7_amended_witness :
    (⟨2024, 13, "Bogus", -7⟩ : AnalyticsData) ∈
      ([⟨2024, 13, "Bogus", -7⟩] : List AnalyticsData)
    ∧ ∃ b ∈ groupedAnalytics [⟨2024, 13, "Bogus", -7⟩],
        b.year = 2024 ∧ b.monthNum = 13 :=
  ⟨by simp, c7_amended [⟨2024, 13, "Bogus", -7⟩] ⟨2024, 13, "Bogus", -7⟩ (by simp)⟩

/-- C8 (counterexample): on an empty record set the windowed series is
empty and no average is reported at all — the summary cards are not
rendered — rather than an averageMonthly equal to 0. -/
theorem c8_counterexample :
    averageMonthly (filteredChartData .all (sortedChartData [])) = none
    ∧ averageMonthly (filteredChartData .all (sortedChartData [])) ≠ some 0 := by
  have hw : filteredChartData .all (sortedChartData []) = [] := by
    simp [filteredChartData, sortedChartData, groupedAnalytics, List.mergeSort]
  rw [hw]
  simp [averageMonthly]

/-- C8 (amended): whenever the input is nonempty the window is nonempty
under every timeframe and the reported average equals the grand total
divided by the bucket count; when the window is empty nothing is reported
(`none`), so no NaN is ever displayed. -/
theorem c8_amended (analytics : List AnalyticsData) (tf : Timeframe)
    (h : analytics ≠ []) :
    (filteredChartData tf (sortedChartData analytics)).length ≠ 0
    ∧ averageMonthly (filteredChartData tf (sortedChartData analytics))
        = some (totalExpenses (filteredChartData tf (sortedChartData analytics)) /
            ((filteredChartData tf (sortedChartData analytics)).length : Rat))
    ∧ averageMonthly (filteredChartData tf (sortedChartData [])) = none := by
  have hlen : (filteredChartData tf (sortedChartData analytics)).length ≠ 0 := by
    obtain ⟨r, hr⟩ := List.exists_mem_of_ne_nil analytics h
    have hk : (r.year, r.month) ∈ keysOf (groupedAnalytics analytics) := by
      rw [groupedAnalytics, mem_keysOf_foldl]
      exact Or.inr ⟨r, hr, rfl⟩
    have hg : (groupedAnalytics analytics).length ≠ 0 := by
      intro hnil
      rw [List.length_eq_zero.mp hnil] at hk
      simp [keysOf] at hk
    have hs : (sortedChartData analytics).length ≠ 0 := by
      rw [sortedChartData, List.length_mergeSort]
      exact hg
    cases tf <;> simp only [filteredChartData, List.length_drop] <;> omega
  refine ⟨hlen, ?_, ?_⟩
  · rw [averageMonthly, if_pos (Nat.pos_of_ne_zero hlen)]
  · have hw : sortedChartData ([] : List AnalyticsData) = [] := by
      simp [sortedChartData, groupedAnalytics, List.mergeSort]
    rw [hw]
    cases tf <;> simp [filteredChartData, averageMonthly]

/-- C8 witness: the amended statement applied to a one-record input under
the all-time window. -/
theorem c8_amended_witness :
    ([⟨2024, 1, "Groceries", 100⟩] : List AnalyticsData) ≠ []
    ∧ ((filteredChartData .all (sortedChartData [⟨2024, 1, "Groceries", 100⟩])).length ≠ 0
      ∧ averageMonthly (filteredChartData .all (sortedChartData [⟨2024, 1, "Groceries", 100⟩]))
          = some (totalExpenses (filteredChartData .all
              (sortedChartData [⟨2024, 1, "Groceries", 100⟩])) /
            ((filteredChartData .all (sortedChartData [⟨2024, 1, "Groceries", 100⟩])).length : Rat))
      ∧ averageMonthly (filteredChartData .all (sortedChartData [])) = none) :=
  ⟨by simp, c8_amended [⟨2024, 1, "Groceries", 100⟩] .all (by simp)⟩

/-- C4 witness: the chronological-ordering theorem applied to the
specification scenario records. -/
theorem c4_chronological_ordering_witness :
    (∀ r ∈ ([⟨2024, 1, "Groceries", 100⟩, ⟨2024, 1, "Travel", 50⟩,
        ⟨2024, 2, "Groceries", 200⟩] : List AnalyticsData),
      ValidYM r.year r.month)
    ∧ ((sortedChartData [⟨2024, 1, "Groceries", 100⟩, ⟨2024, 1, "Travel", 50⟩,
          ⟨2024, 2, "Groceries", 200⟩]).Pairwise bucketLt
      ∧ (keysOf (sortedChartData [⟨2024, 1, "Groceries", 100⟩,
          ⟨2024, 1, "Travel", 50⟩, ⟨2024, 2, "Groceries", 200⟩])).Nodup) :=
  ⟨by decide,
    c4_chronological_ordering
      [⟨2024, 1, "Groceries", 100⟩, ⟨2024, 1, "Travel", 50⟩,
        ⟨2024, 2, "Groceries", 200⟩] (by decide)⟩

/-- C9 witness: the share-sum theorem applied to a one-bucket window with
a positive grand total. -/
theorem c9_shares_sum_to_one_witness :
    0 < totalExpenses [(⟨"2024-01", 2024, 1, "Jan 2024", [("Rental", 1)]⟩ : ChartDataItem)]
    ∧ ((categoryTotals [(⟨"2024-01", 2024, 1, "Jan 2024", [("Rental", 1)]⟩ : ChartDataItem)]).map
        (fun e => (jsDiv e.total
          (totalExpenses [(⟨"2024-01", 2024, 1, "Jan 2024", [("Rental", 1)]⟩ : ChartDataItem)])).getD 0)).sum
      = 1 :=
  ⟨by simp +decide [totalExpenses, monthTotal, knownCategories, CATEGORY_COLORS,
      catAmount, lookupAmount],
    c9_shares_sum_to_one _
      (by simp +decide [totalExpenses, monthTotal, knownCategories, CATEGORY_COLORS,
        catAmount, lookupAmount])⟩

end ClientExpense
